import Mathlib

/-!
# Verification of the ydict core (src/unnamed/part_002, src/src/ydict/*)

A shallow embedding of the ydict dictionary core in Lean 4.

Modelling conventions:
* C++ byte strings (`std::string`, `std::string_view`) are `List Nat`
  with entries intended in `0..255`;
* machine integers are `Nat`/`Int` (the C++ arithmetic in scope never
  overflows: values read from files are bounded by construction);
* `std::ifstream` is a triple (contents, read position, fail flag), with
  read / get / seek operations mirroring the C++ stream semantics used by
  the code (a short `read` zero-fills the untouched part of the
  zero-initialized buffer and sets the fail flag; `get` at end of data
  sets the fail flag; operations on a failed stream are no-ops);
* the CLI renderer's stack `std::vector<RtfCliState>` is a `List` whose
  HEAD is the C++ `back()` (top of stack);
* the render loops are driven with a structural fuel parameter equal to
  the input length; `cliStep_consumes` below proves each loop iteration
  consumes at least one input byte, so that fuel is always sufficient.
-/

namespace Ydict

/-- Byte-list image of the 32-entry `kPhoneticToUtf8` table
(`src/unnamed/part_002:30-35`): each C string literal is replaced by the
list of its UTF-8 bytes (e.g. index 8, "ə" U+0259, is `[201, 153]`). -/
def kPhoneticToUtf8 : List (List Nat) :=
  [[63], [63], [201, 148], [202, 146], [63], [202, 131], [201, 155], [202, 140],
   [201, 153], [206, 184], [201, 170], [201, 145], [63], [203, 144], [203, 136], [63],
   [197, 139], [63], [63], [63], [63], [63], [63], [195, 176],
   [195, 166], [63], [63], [63], [63], [63], [63], [63]]

/-- `append_cp1250_byte_as_utf8` (`part_002:230-261`), portable (non-`_WIN32`)
branch: `0x7F ↦ "~"`, ASCII passes through, any high byte yields `"?"`.
(The Windows branch converts through code page 1250; byte `0x88` is
unassigned there, so for `0x88` both branches produce `"?"`.)  The function
returns the bytes appended to the output rather than mutating it. -/
def append_cp1250_byte_as_utf8 (b : Nat) : List Nat :=
  if b = 127 then [126]
  else if b < 128 then [b]
  else [63]

/-- `append_byte_as_utf8` (`part_002:263-270`): in phonetic mode, bytes
`0x80..0x9F` go through the phonetic table; everything else goes through
the legacy code-page path. -/
def append_byte_as_utf8 (b : Nat) (phoneticMode : Bool) : List Nat :=
  if phoneticMode ∧ 128 ≤ b ∧ b < 160 then kPhoneticToUtf8.getD (b - 128) []
  else append_cp1250_byte_as_utf8 b

/-- `hexval` (`part_002:222-228`): value of a hex digit byte, `-1` otherwise. -/
def hexval (c : Nat) : Int :=
  if 48 ≤ c ∧ c ≤ 57 then (c : Int) - 48
  else if 97 ≤ c ∧ c ≤ 102 then 10 + ((c : Int) - 97)
  else if 65 ≤ c ∧ c ≤ 70 then 10 + ((c : Int) - 65)
  else -1

/-- `is_alpha` (`part_002:272-275`). -/
def is_alpha (c : Nat) : Bool :=
  (97 ≤ c ∧ c ≤ 122) ∨ (65 ≤ c ∧ c ≤ 90)

/-- `is_digit` (`part_002:277-280`). -/
def is_digit (c : Nat) : Bool :=
  48 ≤ c ∧ c ≤ 57

/-- The whitespace test used by `trim_sv` (`part_002:282-293`):
space, tab or carriage return. -/
def isTrimWs (c : Nat) : Bool :=
  c = 32 ∨ c = 9 ∨ c = 13

/-- `trim_sv` (`part_002:282-293`): drop leading and trailing
space / tab / CR bytes. -/
def trim_sv (s : List Nat) : List Nat :=
  ((s.dropWhile isTrimWs).reverse.dropWhile isTrimWs).reverse

/-- `is_pos_heading` (`part_002:295-310`): after trimming, exact match
against the closed set of part-of-speech headings.  Note the source list
has ELEVEN entries: `n`, `adj`, `adv`, `vt`, `vi`, `prep`, `pron`,
`conj`, `num`, `det`, `modal aux vb`. -/
def is_pos_heading (t : List Nat) : Bool :=
  let t := trim_sv t
  t = [110] ∨
  t = [97, 100, 106] ∨
  t = [97, 100, 118] ∨
  t = [118, 116] ∨
  t = [118, 105] ∨
  t = [112, 114, 101, 112] ∨
  t = [112, 114, 111, 110] ∨
  t = [99, 111, 110, 106] ∨
  t = [110, 117, 109] ∨
  t = [100, 101, 116] ∨
  t = [109, 111, 100, 97, 108, 32, 97, 117, 120, 32, 118, 98]

end Ydict

namespace Ydict

/-! ## Binary stream model for the index loader -/

/-- Model of a `std::ifstream` opened in binary mode: file contents,
current read position, and whether `failbit`/`badbit` is set. -/
structure MStream where
  data : List Nat
  pos : Nat
  fail : Bool
  deriving Repr, DecidableEq

/-- `in.read(buf, n)` where `buf` is zero-initialized: returns the `n`
bytes placed in the buffer and the new stream.  If fewer than `n` bytes
remain, the available bytes are read, the rest of the buffer stays `0`,
and the fail flag is set.  A failed stream reads nothing. -/
def mread (s : MStream) (n : Nat) : List Nat × MStream :=
  if s.fail then (List.replicate n 0, s)
  else if s.pos + n ≤ s.data.length then
    ((s.data.drop s.pos).take n, { s with pos := s.pos + n })
  else
    (((s.data.drop s.pos).take n) ++ List.replicate (n - (s.data.length - s.pos)) 0,
     { s with pos := s.data.length, fail := true })

/-- `in.get()`: one byte, or `none` at end of data (setting the fail flag). -/
def mget (s : MStream) : Option Nat × MStream :=
  if s.fail then (none, s)
  else
    match s.data.drop s.pos with
    | [] => (none, { s with fail := true })
    | b :: _ => (some b, { s with pos := s.pos + 1 })

/-- `in.seekg(off, std::ios::beg)`.  On a regular file a seek to any
non-negative offset (even past the end) succeeds; a failed stream is
left untouched (the sentry fails). -/
def mseek (s : MStream) (off : Nat) : MStream :=
  if s.fail then s else { s with pos := off }

/-- `in.seekg(off, std::ios::cur)` for a non-negative relative offset. -/
def mseekCur (s : MStream) (off : Nat) : MStream :=
  if s.fail then s else { s with pos := s.pos + off }

/-- `read_u16_le` (`part_002:54-59`). -/
def read_u16_le (s : MStream) : Nat × MStream :=
  let r := mread s 2
  (r.1.getD 0 0 + 256 * r.1.getD 1 0, r.2)

/-- `read_u32_le` (`part_002:61-69`). -/
def read_u32_le (s : MStream) : Nat × MStream :=
  let r := mread s 4
  (r.1.getD 0 0 + 256 * r.1.getD 1 0 + 65536 * r.1.getD 2 0 + 16777216 * r.1.getD 3 0, r.2)

/-- `read_cstr` (`part_002:71-80`): bytes up to (not including) the first
`0`; hitting end-of-data instead of a terminator sets the fail flag and
returns what was accumulated.  On an already-failed stream `get` yields
EOF at once, so the result is empty.  This closed form is equivalent to
the C++ byte-at-a-time loop. -/
def read_cstr (s : MStream) : List Nat × MStream :=
  if s.fail then ([], s)
  else
    let rest := s.data.drop s.pos
    let w := rest.takeWhile (fun b => ¬ b = 0)
    if w.length < rest.length then
      (w, { s with pos := s.pos + w.length + 1 })
    else
      (w, { s with pos := s.data.length, fail := true })

/-! ## The dictionary data model -/

/-- `WordEntry` (`ydict.h`): the word's bytes plus its `.dat` offset. -/
structure WordEntry where
  word : List Nat
  dat_offset : Nat
  deriving Repr, DecidableEq

instance : Inhabited WordEntry := ⟨⟨[], 0⟩⟩

/-- The `Dictionary` members that the core operations touch:
`initialized_` and `words_`. -/
structure DictState where
  initialized : Bool
  words : List WordEntry
  deriving Repr, DecidableEq

/-- The `.idx` magic constant (`part_002:106`). -/
def kIdxMagic : Nat := 0x8d4e11d5

/-- The per-entry body of the `Dictionary::init` loop
(`part_002:128-137`): skip 4 reserved bytes, read the data offset, read
the null-terminated word; a stream failure aborts, KEEPING the entries
accumulated so far. -/
def initLoop : Nat → MStream → List WordEntry → Bool × List WordEntry
  | 0, _, acc => (true, acc)
  | n + 1, s, acc =>
    let s1 := mseekCur s 4
    let r2 := read_u32_le s1
    let r3 := read_cstr r2.2
    if r3.2.fail then (false, acc)
    else initLoop n r3.2 (acc ++ [⟨r3.1, r2.1⟩])

/-- `Dictionary::init` (`part_002:82-149`), modelled from the point where
both files opened successfully, with `idxData` the contents of the `.idx`
file.  (The earlier guards — empty paths, unopenable files — all return
`(false, ⟨false, []⟩)`; the optional `.idx` dump is a diagnostic file
write outside the byte-level model and does not affect `words_` or the
return value.)  The previous state is cleared first (`part_002:84-87`)
and is otherwise ignored. -/
def dictInit (_prev : DictState) (idxData : List Nat) : Bool × DictState :=
  let cleared : DictState := ⟨false, []⟩
  let s0 : MStream := ⟨idxData, 0, false⟩
  let r1 := read_u32_le s0
  if r1.2.fail ∨ ¬ r1.1 = kIdxMagic then (false, cleared)
  else
    let r2 := read_u16_le (mseek r1.2 8)
    if r2.2.fail then (false, cleared)
    else
      let r3 := read_u32_le (mseek r2.2 16)
      if r3.2.fail then (false, cleared)
      else
        let s4 := mseek r3.2 r3.1
        if s4.fail then (false, cleared)
        else
          let r := initLoop r2.1 s4 []
          if r.1 then (true, ⟨true, r.2⟩) else (false, ⟨false, r.2⟩)

/-- `Dictionary::wordCount` (`part_002:158-161`). -/
def wordCount (d : DictState) : Int :=
  d.words.length

/-- `Dictionary::wordAt` (`part_002:163-168`): `nullptr` becomes `none`.
Note the C++ does NOT consult `initialized_` here. -/
def wordAt (d : DictState) (index : Int) : Option WordEntry :=
  if index < 0 ∨ ¬ index < (d.words.length : Int) then none
  else some (d.words.getD index.toNat default)

/-- `kMaxDefSize` (`part_002:203`): 4 MiB. -/
def kMaxDefSize : Nat := 4 * 1024 * 1024

/-- Little-endian 32-bit value at offset `off` of a byte list
(the `read_u32_le` of `Dictionary::readRtf` after a successful seek). -/
def leU32At (dat : List Nat) (off : Nat) : Nat :=
  dat.getD off 0 + 256 * dat.getD (off + 1) 0 +
    65536 * dat.getD (off + 2) 0 + 16777216 * dat.getD (off + 3) 0

/-- `Dictionary::readRtf` (`part_002:170-218`) with `dat` the contents of
the `.dat` file.  In the model the file contents are a fixed byte list,
so the final short-read guard (`gcount != len`) can never fire once
`offset + 4 + len ≤ fileSize` holds, and the `dat_path_.empty()` /
open-failure / seek-failure guards (I/O conditions) cannot fire either;
every other guard is mirrored one-for-one. -/
def readRtf (d : DictState) (dat : List Nat) (defIndex : Int) : List Nat :=
  if d.initialized = false then []
  else if defIndex < 0 ∨ (d.words.length : Int) ≤ defIndex then []
  else if dat.length = 0 then []
  else
    let off := (d.words.getD defIndex.toNat default).dat_offset
    if dat.length < off + 4 then []
    else
      let len := leU32At dat off
      if len = 0 ∨ kMaxDefSize < len then []
      else if dat.length < off + 4 + len then []
      else (dat.drop (off + 4)).take len

/-! ## Search over the word table -/

/-- `std::string` `operator<`: byte-lexicographic comparison
(`char_traits<char>::compare` compares as unsigned bytes). -/
def ltBytes : List Nat → List Nat → Bool
  | [], [] => false
  | [], _ :: _ => true
  | _ :: _, [] => false
  | a :: s, b :: t => if a < b then true else if b < a then false else ltBytes s t

/-- `std::lower_bound` over `words_` with the comparator
`e.word < w` (`part_002:680-682`), exactly as the standard library's
binary search runs it: `first`/`len` bisection.  The `fuel` argument is
structural and is always called with `fuel = len`, which suffices since
both recursive calls strictly decrease `len`. -/
def lbAux (ws : List WordEntry) (w : List Nat) : Nat → Nat → Nat → Nat
  | 0, first, _ => first
  | _ + 1, first, len =>
    if len = 0 then first
    else
      let half := len / 2
      let mid := first + half
      if ltBytes (ws.getD mid default).word w then
        lbAux ws w (len - half - 1) (mid + 1) (len - half - 1)
      else
        lbAux ws w half first half

/-- The result index of the `std::lower_bound` call in
`Dictionary::findWord` / `Dictionary::lowerBound`. -/
def lowerBoundIdx (ws : List WordEntry) (w : List Nat) : Nat :=
  lbAux ws w ws.length 0 ws.length

/-- The linear-scan fallback of `Dictionary::findWord`
(`part_002:688-691`): first index whose word equals `w`. -/
def scanEq : List WordEntry → Nat → List Nat → Option Nat
  | [], _, _ => none
  | e :: rest, i, w => if e.word = w then some i else scanEq rest (i + 1) w

/-- `Dictionary::findWord` (`part_002:674-694`): `-1` when uninitialized
or the word is empty; otherwise the binary-search fast path, then the
linear-scan fallback, then `-1`. -/
def findWord (d : DictState) (word : List Nat) : Int :=
  if ¬ d.initialized ∨ word = [] then -1
  else
    let i := lowerBoundIdx d.words word
    if i < d.words.length ∧ (d.words.getD i default).word = word then (i : Int)
    else
      match scanEq d.words 0 word with
      | some j => (j : Int)
      | none => -1

/-- `ascii_tolower` (`part_002:714-719`). -/
def ascii_tolower (c : Nat) : Nat :=
  if 65 ≤ c ∧ c ≤ 90 then c - 65 + 97 else c

/-- `starts_with_ascii_icase` (`part_002:721-733`): does `s` start with
`pfx`, comparing bytes ASCII-case-insensitively? -/
def starts_with_ascii_icase : List Nat → List Nat → Bool
  | _, [] => true
  | [], _ :: _ => false
  | a :: s, b :: p =>
    if ascii_tolower a = ascii_tolower b then starts_with_ascii_icase s p else false

/-- The `"to "`-stripping step at the top of `Dictionary::suggest`
(`part_002:753-761`): if the prefix has at least three bytes and starts
with `t`/`T`, `o`/`O`, space, drop those three bytes. -/
def stripTo (pfx : List Nat) : List Nat :=
  match pfx with
  | p0 :: p1 :: 32 :: rest =>
    if (p0 = 116 ∨ p0 = 84) ∧ (p1 = 111 ∨ p1 = 79) then rest else pfx
  | _ => pfx

/-- The scan loop of `Dictionary::suggest` (`part_002:763-767`): walk the
table in file order, collecting indices of case-insensitive prefix
matches while fewer than `need` results have been collected. -/
def suggestScan : List WordEntry → Nat → List Nat → Nat → List Nat
  | [], _, _, _ => []
  | e :: rest, i, p, need =>
    if need = 0 then []
    else if starts_with_ascii_icase e.word p then i :: suggestScan rest (i + 1) p (need - 1)
    else suggestScan rest (i + 1) p need

/-- `Dictionary::suggest` (`part_002:747-770`).  The C++ stores the
(always non-negative) indices as `int`; the model keeps them as `Nat`. -/
def suggest (d : DictState) (pfx : List Nat) (maxResults : Nat) : List Nat :=
  if ¬ d.initialized ∨ pfx = [] ∨ maxResults = 0 then []
  else
    let p := stripTo pfx
    if p = [] then []
    else suggestScan d.words 0 p maxResults

/-! ## Control-word parsing shared by both renderers

Both renderers parse `\word[-]digits[ ]` the same way
(`part_002:477-501` and `part_002:594-621`): a run of letters, an
optional signed decimal parameter, then one optional delimiter space. -/

/-- Numeric value of a run of decimal digit bytes, accumulated exactly as
the C++ loop `param = param * 10 + (c - '0')` does. -/
def digitsVal (ds : List Nat) : Int :=
  ds.foldl (fun a d => a * 10 + ((d : Int) - 48)) 0

/-- The optional-parameter parse: returns `(hasParam, param, rest)`. -/
def splitParam (l : List Nat) : Bool × Int × List Nat :=
  match l with
  | [] => (false, 0, [])
  | d :: t =>
    if d = 45 then (true, - digitsVal (t.takeWhile is_digit), t.dropWhile is_digit)
    else if is_digit d then
      (true, digitsVal ((d :: t).takeWhile is_digit), (d :: t).dropWhile is_digit)
    else (false, 0, d :: t)

/-- The optional delimiter-space skip after a control word. -/
def skipSpace (l : List Nat) : List Nat :=
  if l.headD 0 = 32 then l.tail else l

theorem dropWhile_length_le (p : Nat → Bool) (l : List Nat) :
    (l.dropWhile p).length ≤ l.length := by
  induction l with
  | nil => simp
  | cons a t ih => by_cases h : p a <;> simp [List.dropWhile, h] <;> omega

theorem splitParam_length_le (l : List Nat) : (splitParam l).2.2.length ≤ l.length := by
  match l with
  | [] => simp [splitParam]
  | d :: t =>
    by_cases h45 : d = 45
    · simpa [splitParam, h45] using Nat.le_succ_of_le (dropWhile_length_le is_digit t)
    · by_cases hd : is_digit d
      · simpa [splitParam, h45, hd] using dropWhile_length_le is_digit (d :: t)
      · simp [splitParam, h45, hd]

theorem skipSpace_length_le (l : List Nat) : (skipSpace l).length ≤ l.length := by
  cases l with
  | nil => simp [skipSpace]
  | cons a t =>
    by_cases h : a = 32 <;> simp [skipSpace, h] <;> omega

/-- Length bound for the full control-word parse chain. -/
theorem parseChain_length_le (l : List Nat) :
    (skipSpace (splitParam (l.dropWhile is_alpha)).2.2).length ≤ l.length :=
  le_trans (skipSpace_length_le _)
    (le_trans (splitParam_length_le _) (dropWhile_length_le is_alpha l))

/-! ## The plain renderer `rtf_to_plain_utf8` (`part_002:556-656`) -/

/-- The control-sequence handling of `rtf_to_plain_utf8` for a backslash
followed by `next :: rest2` (`part_002:577-652`): returns the emitted
bytes, the updated `phonetic` flag, and the unconsumed input.  Covers the
`\'hh` hex escape, `\par`/`\line`, `\tab`, `\fN`, `\uN` (the portable
branch emits `?` and skips one fallback byte), and the
ignore-everything-else fallthrough (an unrecognized marker, including a
lone apostrophe or brace after the backslash, consumes nothing beyond
the backslash, so the following byte is reprocessed as ordinary input,
exactly as the C++ index arithmetic does). -/
def plainCtrl (ph : Bool) (next : Nat) (rest2 : List Nat) : List Nat × Bool × List Nat :=
  if next = 39 ∧ 2 ≤ rest2.length ∧
      0 ≤ hexval (rest2.getD 0 0) ∧ 0 ≤ hexval (rest2.getD 1 0) then
    (append_byte_as_utf8
      (16 * (hexval (rest2.getD 0 0)).toNat + (hexval (rest2.getD 1 0)).toNat) ph,
     ph, rest2.drop 2)
  else if (next :: rest2).takeWhile is_alpha = [112, 97, 114] ∨
      (next :: rest2).takeWhile is_alpha = [108, 105, 110, 101] then
    ([10], ph, skipSpace (splitParam ((next :: rest2).dropWhile is_alpha)).2.2)
  else if (next :: rest2).takeWhile is_alpha = [116, 97, 98] then
    ([9], ph, skipSpace (splitParam ((next :: rest2).dropWhile is_alpha)).2.2)
  else if (next :: rest2).takeWhile is_alpha = [102] ∧
      (splitParam ((next :: rest2).dropWhile is_alpha)).1 then
    ([], decide ((splitParam ((next :: rest2).dropWhile is_alpha)).2.1 = 1),
     skipSpace (splitParam ((next :: rest2).dropWhile is_alpha)).2.2)
  else if (next :: rest2).takeWhile is_alpha = [117] ∧
      (splitParam ((next :: rest2).dropWhile is_alpha)).1 then
    ([63], ph, (skipSpace (splitParam ((next :: rest2).dropWhile is_alpha)).2.2).drop 1)
  else
    ([], ph, skipSpace (splitParam ((next :: rest2).dropWhile is_alpha)).2.2)

theorem plainCtrl_length_le (ph : Bool) (next : Nat) (rest2 : List Nat) :
    (plainCtrl ph next rest2).2.2.length ≤ rest2.length + 1 := by
  have h : (skipSpace (splitParam ((next :: rest2).dropWhile is_alpha)).2.2).length ≤
      rest2.length + 1 := by
    simpa using parseChain_length_le (next :: rest2)
  unfold plainCtrl
  split_ifs <;> simp only [List.length_drop] <;> omega

/-- The body of `rtf_to_plain_utf8`, parameterized by the current
`phonetic` flag (its only state).  Group braces are dropped; a raw byte
decodes through `append_byte_as_utf8`; control sequences go through
`plainCtrl`.  A trailing lone backslash ends the pass (the C++
`break`). -/
def plainFrom (ph : Bool) (input : List Nat) : List Nat :=
  match input with
  | [] => []
  | ch :: rest =>
    if ch = 123 ∨ ch = 125 then plainFrom ph rest
    else if ¬ ch = 92 then append_byte_as_utf8 ch ph ++ plainFrom ph rest
    else
      match rest with
      | [] => []
      | next :: rest2 =>
        (plainCtrl ph next rest2).1 ++
          plainFrom (plainCtrl ph next rest2).2.1 (plainCtrl ph next rest2).2.2
termination_by input.length
decreasing_by
  all_goals simp_wf
  all_goals first
    | omega
    | (exact Nat.lt_succ_of_le (le_trans (plainCtrl_length_le _ _ _) (by simp)))

/-- `rtf_to_plain_utf8` (`part_002:556-656`): the plain pass starts with
`phonetic = false`. -/
def rtf_to_plain_utf8 (rtf : List Nat) : List Nat := plainFrom false rtf

/-! ## The CLI (pretty) renderer `renderRtfForCli` (`part_002:343-554`) -/

/-- `RtfCliState` (`part_002:335-341`): one render frame. -/
structure RtfCliState where
  cf : Int := 0
  phonetic : Bool := false
  hide : Bool := false
  margin : Bool := false
  deriving Repr, DecidableEq

instance : Inhabited RtfCliState := ⟨{}⟩

/-- The full mutable state of the `renderRtfForCli` pass: the frame stack
`st` (HEAD of the list is the C++ `st.back()`, the top of the stack), the
output, the current line buffer, the captured line-start frame, and the
count of newlines just emitted. -/
structure CliSt where
  st : List RtfCliState
  out : List Nat
  line : List Nat
  haveLineStart : Bool
  lineStart : RtfCliState
  nl_run : Nat
  deriving Repr, DecidableEq

/-- The state at `part_002:345-357`: one default frame on the stack,
everything else empty. -/
def cliInit : CliSt := ⟨[{}], [], [], false, {}, 0⟩

/-- `st.back()`. -/
def topFrame (s : CliSt) : RtfCliState := s.st.headD default

/-- Apply a function to the top frame (`st.back() = ...`). -/
def modTop (s : CliSt) (f : RtfCliState → RtfCliState) : CliSt :=
  match s.st with
  | [] => s
  | g :: gs => { s with st := f g :: gs }

/-- `emit_newline` (`part_002:363-373`): skip if the output is empty or
already ends in two newlines; otherwise append one newline. -/
def emit_newline (s : CliSt) : CliSt :=
  if s.out = [] then s
  else if 2 ≤ s.nl_run then s
  else { s with out := s.out ++ [10], nl_run := s.nl_run + 1 }

/-- `flush_line` (`part_002:375-402`): commit the trimmed line buffer,
prefixing two spaces when the line-start frame has `margin`, and `"- "`
when it has `cf == 2` and the text is not a POS heading.  `mark_non_nl`
is the `nl_run := 0` here. -/
def flush_line (s : CliSt) : CliSt :=
  if ¬ s.haveLineStart ∧ s.line = [] then s
  else
    let t := trim_sv s.line
    if t = [] then { s with line := [], haveLineStart := false }
    else
      let pre1 : List Nat := if s.lineStart.margin then [32, 32] else []
      let pre2 : List Nat := if s.lineStart.cf = 2 ∧ ¬ is_pos_heading t then [45, 32] else []
      { s with out := s.out ++ pre1 ++ pre2 ++ t,
               line := [], haveLineStart := false, nl_run := 0 }

/-- `ensure_line_started` (`part_002:404-409`): capture the current top
frame as the line-start frame. -/
def ensure_line_started (s : CliSt) : CliSt :=
  if s.haveLineStart then s
  else { s with haveLineStart := true, lineStart := topFrame s }

/-- `push_text_byte` (`part_002:411-421`): drop when hidden or when
whitespace arrives at the beginning of the line; otherwise decode the
byte into the line buffer. -/
def push_text_byte (s : CliSt) (b : Nat) : CliSt :=
  if (topFrame s).hide then s
  else if s.line = [] ∧ (b = 32 ∨ b = 9 ∨ b = 13) then s
  else
    let s1 := ensure_line_started s
    { s1 with line := s1.line ++ append_byte_as_utf8 b (topFrame s1).phonetic }

/-- Dispatch of `renderRtfForCli` on a parsed control word
`(tok, hasParam, param)` with remaining input `r3` (`part_002:503-549`). -/
def cliCtrlWord (s : CliSt) (tok : List Nat) (hasParam : Bool) (param : Int)
    (r3 : List Nat) : CliSt × List Nat :=
  if tok = [112, 97, 114] ∨ tok = [108, 105, 110, 101] then
    (if (topFrame s).hide then s else emit_newline (flush_line s), r3)
  else if tok = [112, 97, 114, 100] then
    (modTop s (fun f => { f with cf := 0, margin := false }), r3)
  else if tok = [116, 97, 98] then
    (if (topFrame s).hide then s else push_text_byte s 9, r3)
  else if tok = [99, 102] ∧ hasParam then
    (modTop s (fun f => { f with cf := param }), r3)
  else if tok = [115, 97] ∧ hasParam then
    (modTop s (fun f => { f with margin := decide (¬ param = 0) }), r3)
  else if tok = [102] ∧ hasParam then
    (modTop s (fun f => { f with phonetic := decide (param = 1) }), r3)
  else if tok = [113, 99] then
    (modTop s (fun f => { f with hide := true }), r3)
  else if tok = [117] ∧ hasParam ∧ ¬ (topFrame s).hide then
    (let s1 := ensure_line_started s
     { s1 with line := s1.line ++ [63] }, r3.drop 1)
  else (s, r3)

/-- The control-sequence handling of `renderRtfForCli` for a backslash
followed by `next :: rest2` (`part_002:456-549`): escaped literal braces
and backslash, the `\'hh` hex escape, the recognized control words
(through `cliCtrlWord`), and the ignore-everything-else fallthrough.
Returns the updated state and the unconsumed input. -/
def cliCtrl (s : CliSt) (next : Nat) (rest2 : List Nat) : CliSt × List Nat :=
  if next = 92 ∨ next = 123 ∨ next = 125 then (push_text_byte s next, rest2)
  else if next = 39 ∧ 2 ≤ rest2.length ∧
      0 ≤ hexval (rest2.getD 0 0) ∧ 0 ≤ hexval (rest2.getD 1 0) then
    (push_text_byte s
      (16 * (hexval (rest2.getD 0 0)).toNat + (hexval (rest2.getD 1 0)).toNat),
     rest2.drop 2)
  else
    cliCtrlWord s ((next :: rest2).takeWhile is_alpha)
      (splitParam ((next :: rest2).dropWhile is_alpha)).1
      (splitParam ((next :: rest2).dropWhile is_alpha)).2.1
      (skipSpace (splitParam ((next :: rest2).dropWhile is_alpha)).2.2)

/-- One iteration of the `for` loop of `renderRtfForCli`
(`part_002:423-550`): consume at least one byte of `input` (on empty
input, or on the `break` for a lone trailing backslash, return the rest
as `[]`) and return the updated state and the unconsumed input. -/
def cliStep (s : CliSt) (input : List Nat) : CliSt × List Nat :=
  match input with
  | [] => (s, [])
  | ch :: rest =>
    if ch = 123 then ({ s with st := topFrame s :: s.st }, rest)
    else if ch = 125 then
      (if 1 < s.st.length then { s with st := s.st.tail } else s, rest)
    else if ¬ ch = 92 then
      if ch = 10 then
        (if (topFrame s).hide then s else emit_newline (flush_line s), rest)
      else if ch = 13 then (s, rest)
      else (push_text_byte s ch, rest)
    else
      match rest with
      | [] => (s, [])
      | next :: rest2 => cliCtrl s next rest2

theorem cliCtrlWord_snd_le (s : CliSt) (tok : List Nat) (hasParam : Bool) (param : Int)
    (r3 : List Nat) : (cliCtrlWord s tok hasParam param r3).2.length ≤ r3.length := by
  unfold cliCtrlWord
  split_ifs <;> (try simp only [List.length_drop]) <;> omega

theorem cliCtrl_snd_le (s : CliSt) (next : Nat) (rest2 : List Nat) :
    (cliCtrl s next rest2).2.length ≤ rest2.length + 1 := by
  have h : (skipSpace (splitParam ((next :: rest2).dropWhile is_alpha)).2.2).length ≤
      rest2.length + 1 := by
    simpa using parseChain_length_le (next :: rest2)
  have hw := cliCtrlWord_snd_le s ((next :: rest2).takeWhile is_alpha)
    (splitParam ((next :: rest2).dropWhile is_alpha)).1
    (splitParam ((next :: rest2).dropWhile is_alpha)).2.1
    (skipSpace (splitParam ((next :: rest2).dropWhile is_alpha)).2.2)
  unfold cliCtrl
  split_ifs <;> (try simp only [List.length_drop] at hw ⊢) <;> omega

/-- Each loop iteration on nonempty input leaves strictly less input, so
fuel equal to the input length always suffices to drive the loop to
completion. -/
theorem cliStep_consumes (s : CliSt) (ch : Nat) (rest : List Nat) :
    (cliStep s (ch :: rest)).2.length < (ch :: rest).length := by
  have hc : ∀ next rest2, rest = next :: rest2 →
      (cliCtrl s next rest2).2.length < (ch :: rest).length := by
    intro next rest2 hr
    have := cliCtrl_snd_le s next rest2
    simp only [hr, List.length_cons]
    omega
  cases rest with
  | nil =>
    unfold cliStep
    repeat' split
    all_goals simp_all
  | cons next rest2 =>
    unfold cliStep
    have h := hc next rest2 rfl
    repeat' split
    all_goals simp_all

/-- The `for` loop of `renderRtfForCli`, driven by structural fuel;
by `cliStep_consumes`, `fuel = input.length` always runs it to the end
of the input. -/
def renderLoopF : Nat → CliSt → List Nat → CliSt
  | 0, s, _ => s
  | fuel + 1, s, input =>
    match input with
    | [] => s
    | _ :: _ => renderLoopF fuel (cliStep s input).1 (cliStep s input).2

/-- `renderRtfForCli` (`part_002:343-554`): run the loop from the initial
state, then the final `flush_line` (`part_002:552`), and return the
output bytes. -/
def renderRtfForCli (rtf : List Nat) : List Nat :=
  (flush_line (renderLoopF rtf.length cliInit rtf)).out

/-- The sequence of states the rendering pass goes through, one entry per
loop iteration (first entry: the state on entering the loop; last entry:
the state after the final iteration, before the closing `flush_line`). -/
def renderTraceF : Nat → CliSt → List Nat → List CliSt
  | 0, s, _ => [s]
  | fuel + 1, s, input =>
    match input with
    | [] => [s]
    | _ :: _ => s :: renderTraceF fuel (cliStep s input).1 (cliStep s input).2

/-- The state trace of a complete `renderRtfForCli` pass over `rtf`. -/
def renderTrace (rtf : List Nat) : List CliSt :=
  renderTraceF rtf.length cliInit rtf

/-- The stored `.dat` offset of entry `i` (index taken as `Int`, the C++
argument type). -/
def rtfOffsetOf (d : DictState) (i : Int) : Nat :=
  (d.words.getD i.toNat default).dat_offset

/-- The "malformed request" condition of the `readBlob`/`readRtf`
contract: index out of range, no room for the 4-byte length prefix,
declared length zero or over 4 MiB, or declared payload overrunning the
file. -/
def rtfMalformed (d : DictState) (dat : List Nat) (i : Int) : Prop :=
  i < 0 ∨ (d.words.length : Int) ≤ i ∨
  dat.length < rtfOffsetOf d i + 4 ∨
  leU32At dat (rtfOffsetOf d i) = 0 ∨
  kMaxDefSize < leU32At dat (rtfOffsetOf d i) ∨
  dat.length < rtfOffsetOf d i + 4 + leU32At dat (rtfOffsetOf d i)

instance (d : DictState) (dat : List Nat) (i : Int) : Decidable (rtfMalformed d dat i) := by
  unfold rtfMalformed
  infer_instance

end Ydict

namespace Ydict

/-! ## Theorems.  Each claim `Cn` of the specification review is settled
by one theorem named `claim_Cn...`; supporting lemmas come first. -/

theorem take_ne_nil_of_pos {l : List Nat} {n : Nat} (hn : 0 < n) (hl : 0 < l.length) :
    ¬ l.take n = [] := by
  intro h
  have hlen := congrArg List.length h
  simp only [List.length_take, List.length_nil] at hlen
  omega

/-- C9 (implicit — `wordAt` totality at the public interface): for every
integer argument `i`, `wordAt` yields no entry exactly when `i < 0` or
`i ≥ wordCount()`, and yields the `i`-th table entry otherwise; the
function is total, so no argument causes an out-of-bounds access. -/
theorem claim_C9_wordAt_total (d : DictState) (i : Int) :
    (wordAt d i = none ↔ i < 0 ∨ wordCount d ≤ i) ∧
    (0 ≤ i → i < wordCount d → wordAt d i = some (d.words.getD i.toNat default)) := by
  unfold wordAt wordCount
  constructor
  · split_ifs with h <;> simp <;> omega
  · intro h1 h2
    split_ifs with h
    · exfalso
      omega
    · rfl

theorem claim_C9_wordAt_total_witness :
    (wordAt ⟨true, [⟨[97], 7⟩]⟩ 0 = some ⟨[97], 7⟩) ∧
    (wordAt ⟨true, [⟨[97], 7⟩]⟩ (-1) = none) ∧
    (wordAt ⟨true, [⟨[97], 7⟩]⟩ 1 = none) :=
  ⟨(claim_C9_wordAt_total ⟨true, [⟨[97], 7⟩]⟩ 0).2 (by decide) (by decide),
   (claim_C9_wordAt_total ⟨true, [⟨[97], 7⟩]⟩ (-1)).1.mpr (by decide),
   (claim_C9_wordAt_total ⟨true, [⟨[97], 7⟩]⟩ 1).1.mpr (by decide)⟩

/-- C5 (`readBlob`/`readRtf` contract): on an initialized dictionary the
operation returns the empty string exactly when the request is malformed
(`rtfMalformed`: index out of range, `offset + 4 > fileSize`, declared
length `L = 0` or `L >` 4 MiB, or `offset + 4 + L > fileSize`; with the
file contents modelled as a fixed byte list, "fewer than `L` bytes
actually readable" coincides with the last condition), and otherwise
returns exactly the `L` bytes following the 4-byte little-endian length
prefix.  The model is a total function, so no exception is possible. -/
theorem claim_C5_readRtf_contract (d : DictState) (dat : List Nat) (i : Int)
    (hinit : d.initialized = true) :
    (readRtf d dat i = [] ↔ rtfMalformed d dat i) ∧
    (¬ rtfMalformed d dat i →
      readRtf d dat i =
        (dat.drop (rtfOffsetOf d i + 4)).take (leU32At dat (rtfOffsetOf d i)) ∧
      (readRtf d dat i).length = leU32At dat (rtfOffsetOf d i)) := by
  refine ⟨⟨fun h => ?_, fun h => ?_⟩, fun hm => ?_⟩
  · unfold readRtf at h
    rw [hinit] at h
    simp only [Bool.true_eq_false, if_false] at h
    unfold rtfMalformed rtfOffsetOf
    split_ifs at h with h1 h2 h3 h4 h5
    · rcases h1 with h1 | h1
      · exact Or.inl h1
      · exact Or.inr (Or.inl h1)
    · exact Or.inr (Or.inr (Or.inl (by omega)))
    · exact Or.inr (Or.inr (Or.inl h3))
    · rcases h4 with h4 | h4
      · exact Or.inr (Or.inr (Or.inr (Or.inl h4)))
      · exact Or.inr (Or.inr (Or.inr (Or.inr (Or.inl h4))))
    · exact Or.inr (Or.inr (Or.inr (Or.inr (Or.inr h5))))
    · exfalso
      have hlen := congrArg List.length h
      simp only [List.length_take, List.length_drop, List.length_nil] at hlen
      omega
  · unfold rtfMalformed rtfOffsetOf at h
    unfold readRtf
    rw [hinit]
    simp only [Bool.true_eq_false, if_false]
    split_ifs with h1 h2 h3 h4 h5
    · rfl
    · rfl
    · rfl
    · rfl
    · rfl
    · exfalso
      push_neg at h1 h4
      rcases h with h | h | h | h | h | h <;> omega
  · unfold rtfMalformed rtfOffsetOf at hm
    push_neg at hm
    obtain ⟨hm1, hm2, hm3, hm4, hm5, hm6⟩ := hm
    unfold readRtf rtfOffsetOf
    rw [hinit]
    simp only [Bool.true_eq_false, if_false]
    split_ifs with h1 h2 h3 h4 h5
    · rcases h1 with h1 | h1 <;> omega
    · omega
    · omega
    · rcases h4 with h4 | h4 <;> omega
    · omega
    · refine ⟨rfl, ?_⟩
      simp only [List.length_take, List.length_drop]
      omega

theorem claim_C5_readRtf_contract_witness :
    (readRtf ⟨true, [⟨[99], 0⟩]⟩ [3, 0, 0, 0, 97, 98, 99] 0 = [97, 98, 99]) ∧
    (readRtf ⟨true, [⟨[99], 6⟩]⟩ [3, 0, 0, 0, 97, 98, 99] 0 = []) := by
  constructor
  · have h := (claim_C5_readRtf_contract ⟨true, [⟨[99], 0⟩]⟩ [3, 0, 0, 0, 97, 98, 99] 0
      rfl).2 (by decide)
    rw [h.1]
    decide
  · exact (claim_C5_readRtf_contract ⟨true, [⟨[99], 6⟩]⟩ [3, 0, 0, 0, 97, 98, 99] 0
      rfl).1.mpr (by decide)

/-- C7 (`ByteDecoder` on `0x88`): with phonetic mode active, byte `0x88`
decodes to the UTF-8 schwa `"ə"` (bytes `[201, 153]`); in general every
byte in `0x80..0x9F` goes through the 32-entry phonetic table and is
never dropped ( unmapped slots yield `"?"`, never `[]`); with phonetic
mode off, `0x88` takes the legacy code-page path, which yields `"?"`
(byte `0x88` is unassigned in code page 1250, and the portable branch
maps every high byte to `"?"`). -/
theorem claim_C7_byteDecoder_0x88 :
    append_byte_as_utf8 136 true = [201, 153] ∧
    (∀ b, 128 ≤ b → b < 160 →
      append_byte_as_utf8 b true = kPhoneticToUtf8.getD (b - 128) [] ∧
      ¬ kPhoneticToUtf8.getD (b - 128) [] = []) ∧
    append_byte_as_utf8 136 false = append_cp1250_byte_as_utf8 136 ∧
    append_cp1250_byte_as_utf8 136 = [63] := by
  refine ⟨by decide, ?_, by decide, by decide⟩
  intro b h1 h2
  constructor
  · simp [append_byte_as_utf8, h1, h2]
  · interval_cases b <;> decide

theorem claim_C7_byteDecoder_0x88_witness :
    append_byte_as_utf8 136 true = kPhoneticToUtf8.getD 8 [] ∧
    ¬ kPhoneticToUtf8.getD 8 [] = [] :=
  claim_C7_byteDecoder_0x88.2.1 136 (by decide) (by decide)

end Ydict

namespace Ydict

/-! ## C1: atomicity of `init` -/

/-- A concrete `.idx` image: valid magic, entry count 2, table offset 20,
one complete entry (`word "a"`, data offset 7) — and then end of data, so
the second entry's read fails mid-loop. -/
def truncatedIdx : List Nat :=
  [213, 17, 78, 141, 0, 0, 0, 0, 2, 0, 0, 0, 0, 0, 0, 0, 20, 0, 0, 0,
   9, 9, 9, 9, 7, 0, 0, 0, 97, 0]

/-- C1 as stated is FALSE: on `truncatedIdx`, `init` returns `false`
because of premature end-of-stream in the entry loop after one entry was
parsed, yet afterwards `wordCount()` is 1 (not 0) and `wordAt 0` yields
that entry — the partially built table survives the failed `init`. -/
theorem claim_C1_init_partial_cex :
    (dictInit ⟨false, []⟩ truncatedIdx).1 = false ∧
    ¬ wordCount (dictInit ⟨false, []⟩ truncatedIdx).2 = 0 ∧
    wordAt (dictInit ⟨false, []⟩ truncatedIdx).2 0 = some ⟨[97], 7⟩ := by
  decide

theorem findWord_uninit (d : DictState) (w : List Nat) (h : d.initialized = false) :
    findWord d w = -1 := by
  unfold findWord
  rw [h]
  simp

theorem readRtf_uninit (d : DictState) (dat : List Nat) (i : Int)
    (h : d.initialized = false) : readRtf d dat i = [] := by
  unfold readRtf
  rw [h]
  simp

theorem suggest_uninit (d : DictState) (p : List Nat) (n : Nat)
    (h : d.initialized = false) : suggest d p n = [] := by
  unfold suggest
  rw [h]
  simp

/-- C1 amended: a failed `init` (for whatever structural reason,
including a stream error or premature end-of-stream in the entry loop)
leaves `initialized_ = false`, so every `initialized_`-guarded operation
(`findWord`, `readRtf`, `suggest`) behaves as on an unloaded dictionary;
however the partially parsed entries stay in the word table — visible
through `wordCount`/`wordAt`, which do not consult `initialized_` — and
are discarded only when the next `init` begins (the result of `init`
never depends on the previous state). -/
theorem claim_C1_init_failure_state (prev prev' : DictState) (idxData : List Nat) :
    ((dictInit prev idxData).1 = false →
      (dictInit prev idxData).2.initialized = false ∧
      (∀ w, findWord (dictInit prev idxData).2 w = -1) ∧
      (∀ dat i, readRtf (dictInit prev idxData).2 dat i = []) ∧
      (∀ p n, suggest (dictInit prev idxData).2 p n = [])) ∧
    dictInit prev idxData = dictInit prev' idxData := by
  constructor
  · intro hfail
    have hinitf : (dictInit prev idxData).2.initialized = false := by
      unfold dictInit at hfail ⊢
      dsimp only at hfail ⊢
      split_ifs at hfail ⊢ <;> simp_all
    exact ⟨hinitf, fun w => findWord_uninit _ w hinitf,
      fun dat i => readRtf_uninit _ dat i hinitf,
      fun p n => suggest_uninit _ p n hinitf⟩
  · rfl

theorem claim_C1_init_failure_state_witness :
    (dictInit ⟨false, []⟩ truncatedIdx).2.initialized = false ∧
    findWord (dictInit ⟨false, []⟩ truncatedIdx).2 [97] = -1 ∧
    dictInit ⟨false, []⟩ truncatedIdx = dictInit ⟨true, [⟨[99], 1⟩]⟩ truncatedIdx := by
  have h := claim_C1_init_failure_state ⟨false, []⟩ ⟨true, [⟨[99], 1⟩]⟩ truncatedIdx
  exact ⟨(h.1 (by decide)).1, (h.1 (by decide)).2.1 [97], h.2⟩

/-! ## C3: `findWord` completeness -/

theorem scanEq_some_of_mem (ws : List WordEntry) (w : List Nat) :
    ∀ i, (∃ k, k < ws.length ∧ (ws.getD k default).word = w) →
    ∃ j, scanEq ws i w = some (i + j) ∧ j < ws.length ∧ (ws.getD j default).word = w := by
  induction ws with
  | nil =>
    intro i h
    obtain ⟨k, hk, _⟩ := h
    simp at hk
  | cons e rest ih =>
    intro i h
    by_cases he : e.word = w
    · exact ⟨0, by simp [scanEq, he], by simp, by simpa using he⟩
    · obtain ⟨k, hk, hkw⟩ := h
      match k, hk with
      | 0, _ => exact absurd (by simpa using hkw) he
      | k' + 1, hk =>
        obtain ⟨j', hj1, hj2, hj3⟩ := ih (i + 1)
          ⟨k', by simpa using hk, by simpa using hkw⟩
        refine ⟨j' + 1, ?_, by simpa using hj2, by simpa using hj3⟩
        simp only [scanEq, he, if_false]
        rw [hj1]
        congr 1
        omega

/-- C3 amended (`findWord` completeness for NONEMPTY words): on an
initialized dictionary, for every nonempty word that occurs in the table,
`findWord` returns a valid index holding that word and never `-1` — even
on an unsorted table, because when the `std::lower_bound` fast path
misses, the linear-scan fallback runs before `-1` is reported.  (For the
empty word the `word.empty()` guard returns `-1` even when the empty
word is present: see the counterexample.) -/
theorem claim_C3_findWord_complete (d : DictState) (w : List Nat)
    (hinit : d.initialized = true) (hw : ¬ w = [])
    (hmem : ∃ k, k < d.words.length ∧ (d.words.getD k default).word = w) :
    ∃ j : Nat, findWord d w = (j : Int) ∧ j < d.words.length ∧
      (d.words.getD j default).word = w ∧
      wordAt d (j : Int) = some (d.words.getD j default) ∧
      ¬ findWord d w = -1 := by
  have hat : ∀ j : Nat, j < d.words.length →
      wordAt d (j : Int) = some (d.words.getD j default) := by
    intro j hj
    unfold wordAt
    rw [if_neg]
    · simp
    · push_neg
      constructor
      · omega
      · exact_mod_cast hj
  unfold findWord
  rw [hinit, if_neg (show ¬ (¬ (true = true) ∨ w = []) by simp [hw])]
  by_cases hfast : lowerBoundIdx d.words w < d.words.length ∧
      (d.words.getD (lowerBoundIdx d.words w) default).word = w
  · refine ⟨lowerBoundIdx d.words w, ?_, hfast.1, hfast.2, hat _ hfast.1, ?_⟩
    · rw [if_pos hfast]
    · rw [if_pos hfast]
      omega
  · obtain ⟨j, hj1, hj2, hj3⟩ := scanEq_some_of_mem d.words w 0 hmem
    rw [show (0 + j) = j from by omega] at hj1
    rw [if_neg hfast, hj1]
    exact ⟨j, rfl, hj2, hj3, hat _ hj2, show ¬ (j : Int) = -1 by omega⟩

theorem claim_C3_findWord_complete_witness :
    ¬ findWord ⟨true, [⟨[122], 0⟩, ⟨[97], 1⟩]⟩ [97] = -1 := by
  obtain ⟨j, _, _, _, _, h5⟩ := claim_C3_findWord_complete
    ⟨true, [⟨[122], 0⟩, ⟨[97], 1⟩]⟩ [97] rfl (by decide) ⟨1, by decide, by decide⟩
  exact h5

/-- A `.idx` image whose single entry has the EMPTY word (its word field
is just the null terminator), loading successfully. -/
def emptyWordIdx : List Nat :=
  [213, 17, 78, 141, 0, 0, 0, 0, 1, 0, 0, 0, 0, 0, 0, 0, 20, 0, 0, 0,
   0, 0, 0, 0, 5, 0, 0, 0, 0]

/-- C3 as stated is FALSE for the empty word: a dictionary can
successfully load a table containing the empty word (`wordAt 0` yields
it), yet `findWord ""` returns `-1` because of the `word.empty()` guard
— the linear-scan fallback never runs. -/
theorem claim_C3_findWord_empty_cex :
    (dictInit ⟨false, []⟩ emptyWordIdx).1 = true ∧
    wordAt (dictInit ⟨false, []⟩ emptyWordIdx).2 0 = some ⟨[], 5⟩ ∧
    findWord (dictInit ⟨false, []⟩ emptyWordIdx).2 [] = -1 := by
  decide

end Ydict

namespace Ydict

/-! ## C10: frame effect of the paragraph-reset token `\pard` -/

/-- C10: processing `\pard` (followed by anything that does not extend
the control word: no letter, no numeric parameter, no delimiter space)
replaces only the top frame's `cf` by `0` and `margin` by `false`; the
top frame's `phonetic` and `hide` flags and every frame below the top
are untouched, no line break is emitted, and the rest of the state
(output, line buffer, line-start bookkeeping, newline run) is unchanged. -/
theorem claim_C10_pard_resets_top_frame (s : CliSt) (f : RtfCliState)
    (fs : List RtfCliState) (rest : List Nat) (hst : s.st = f :: fs)
    (ha : is_alpha (rest.headD 92) = false) (hd : is_digit (rest.headD 92) = false)
    (hm : ¬ rest.headD 92 = 45) (hsp : ¬ rest.headD 92 = 32) :
    cliStep s (92 :: 112 :: 97 :: 114 :: 100 :: rest) =
      ({ s with st := { f with cf := 0, margin := false } :: fs }, rest) ∧
    ({ f with cf := 0, margin := false } : RtfCliState).phonetic = f.phonetic ∧
    ({ f with cf := 0, margin := false } : RtfCliState).hide = f.hide ∧
    ({ s with st := { f with cf := 0, margin := false } :: fs } : CliSt).out = s.out ∧
    ({ s with st := { f with cf := 0, margin := false } :: fs } : CliSt).line = s.line := by
  refine ⟨?_, rfl, rfl, rfl, rfl⟩
  have htok : (112 :: 97 :: 114 :: 100 :: rest).takeWhile is_alpha = [112, 97, 114, 100] := by
    cases rest with
    | nil => decide
    | cons a t =>
      simp only [List.headD_cons] at ha
      simp [List.takeWhile_cons, ha, show is_alpha 112 = true from by decide,
        show is_alpha 97 = true from by decide, show is_alpha 114 = true from by decide,
        show is_alpha 100 = true from by decide]
  have hdrop : (112 :: 97 :: 114 :: 100 :: rest).dropWhile is_alpha = rest := by
    cases rest with
    | nil => decide
    | cons a t =>
      simp only [List.headD_cons] at ha
      simp [List.dropWhile_cons, ha, show is_alpha 112 = true from by decide,
        show is_alpha 97 = true from by decide, show is_alpha 114 = true from by decide,
        show is_alpha 100 = true from by decide]
  have hparam : splitParam rest = (false, 0, rest) := by
    cases rest with
    | nil => rfl
    | cons a t =>
      simp only [List.headD_cons] at hd hm
      simp [splitParam, hd, hm]
  have hskip : skipSpace rest = rest := by
    cases rest with
    | nil => rfl
    | cons a t =>
      simp only [List.headD_cons] at hsp
      simp [skipSpace, hsp]
  show cliCtrl s 112 (97 :: 114 :: 100 :: rest) = _
  unfold cliCtrl
  rw [if_neg (by decide), if_neg (by simp)]
  rw [htok, hdrop, hparam, hskip]
  unfold cliCtrlWord
  rw [if_neg (by decide), if_pos rfl]
  unfold modTop
  rw [hst]

theorem claim_C10_pard_resets_top_frame_witness :
    cliStep
      ⟨[⟨5, true, true, true⟩, ⟨7, false, false, false⟩], [120], [121], true,
        ⟨1, false, false, false⟩, 2⟩
      (92 :: 112 :: 97 :: 114 :: 100 :: [92, 110]) =
      (⟨[⟨0, true, true, false⟩, ⟨7, false, false, false⟩], [120], [121], true,
        ⟨1, false, false, false⟩, 2⟩, [92, 110]) :=
  (claim_C10_pard_resets_top_frame
    ⟨[⟨5, true, true, true⟩, ⟨7, false, false, false⟩], [120], [121], true,
      ⟨1, false, false, false⟩, 2⟩
    ⟨5, true, true, true⟩ [⟨7, false, false, false⟩] [92, 110]
    rfl (by decide) (by decide) (by decide) (by decide)).1

end Ydict

namespace Ydict

/-! ## C2: the pretty-mode bullet rule -/

theorem dropWhile_cons_head_false {p : Nat → Bool} {l : List Nat} {a : Nat} {t : List Nat}
    (h : l.dropWhile p = a :: t) : p a = false := by
  induction l with
  | nil => simp at h
  | cons b m ih =>
    rw [List.dropWhile_cons] at h
    split_ifs at h with hb
    · exact ih h
    · injection h with h1 h2
      subst h1
      simpa using hb

/-- `trim_sv` output is already left-trimmed. -/
theorem trim_sv_left_trimmed (l : List Nat) :
    (trim_sv l).dropWhile isTrimWs = trim_sv l := by
  have heq : trim_sv l = List.rdropWhile isTrimWs (l.dropWhile isTrimWs) := rfl
  obtain ⟨tl, ht⟩ := List.rdropWhile_prefix isTrimWs (l.dropWhile isTrimWs)
  cases hr : List.rdropWhile isTrimWs (l.dropWhile isTrimWs) with
  | nil => rw [heq, hr]; rfl
  | cons a t' =>
    have hu_eq : l.dropWhile isTrimWs = a :: (t' ++ tl) := by
      rw [← ht, hr]
      simp
    have hpa : isTrimWs a = false := by
      have hid : (l.dropWhile isTrimWs).dropWhile isTrimWs = l.dropWhile isTrimWs :=
        List.dropWhile_idempotent isTrimWs l
      rw [hu_eq, List.dropWhile_cons] at hid
      split_ifs at hid with hcond
      · exfalso
        have hlen := congrArg List.length hid
        have hle := dropWhile_length_le isTrimWs (t' ++ tl)
        simp only [List.length_cons] at hlen
        omega
      · simpa using hcond
    rw [heq, hr, List.dropWhile_cons, if_neg (by simp [hpa])]

/-- Trimming is idempotent. -/
theorem trim_sv_idem (l : List Nat) : trim_sv (trim_sv l) = trim_sv l := by
  have key : ∀ m : List Nat, trim_sv m = List.rdropWhile isTrimWs (m.dropWhile isTrimWs) :=
    fun m => rfl
  rw [key (trim_sv l), trim_sv_left_trimmed l, key l]
  exact List.rdropWhile_idempotent isTrimWs (l.dropWhile isTrimWs)

/-- The closed set of part-of-speech heading tokens recognized by
`is_pos_heading` (`part_002:295-310`), as a list: `n`, `adj`, `adv`,
`vt`, `vi`, `prep`, `pron`, `conj`, `num`, `det`, `modal aux vb` —
ELEVEN tokens. -/
def posTokens : List (List Nat) :=
  [[110], [97, 100, 106], [97, 100, 118], [118, 116], [118, 105],
   [112, 114, 101, 112], [112, 114, 111, 110], [99, 111, 110, 106],
   [110, 117, 109], [100, 101, 116],
   [109, 111, 100, 97, 108, 32, 97, 117, 120, 32, 118, 98]]

theorem is_pos_heading_eq_mem (t : List Nat) (ht : trim_sv t = t) :
    is_pos_heading t = true ↔ t ∈ posTokens := by
  unfold is_pos_heading posTokens
  rw [ht]
  simp only [List.mem_cons, List.mem_singleton, decide_eq_true_eq]
  tauto

/-- C2 amended (pretty-mode bullet rule, with the ELEVEN-token set): a
committed line whose line-start frame has `cf = 2` (and no margin) is
prefixed with `"- "` if and only if its trimmed text is NOT one of the
eleven part-of-speech heading tokens `n`, `adj`, `adv`, `vt`, `vi`,
`prep`, `pron`, `conj`, `num`, `det`, `modal aux vb`.  (The claim's
ten-token set omits the adverb abbreviation `adv`, which the code also
leaves undecorated: see the counterexample.) -/
theorem claim_C2_bullet_rule (s : CliSt) (hcf : s.lineStart.cf = 2)
    (hmargin : s.lineStart.margin = false) (hne : ¬ trim_sv s.line = []) :
    (∃ r, (flush_line s).out = s.out ++ 45 :: 32 :: r) ↔
      ¬ trim_sv s.line ∈ posTokens := by
  have hmem := is_pos_heading_eq_mem (trim_sv s.line) (trim_sv_idem s.line)
  have hguard : ¬ (¬ s.haveLineStart = true ∧ s.line = []) := by
    rintro ⟨-, h⟩
    exact hne (by rw [h]; rfl)
  by_cases hp : is_pos_heading (trim_sv s.line) = true
  · constructor
    · rintro ⟨r, hr⟩
      exfalso
      unfold flush_line at hr
      rw [if_neg hguard] at hr
      dsimp only at hr
      rw [if_neg hne] at hr
      simp only [hmargin, hcf, hp] at hr
      have ht : trim_sv s.line = 45 :: 32 :: r := by simpa using hr
      have hhead : ∀ x ∈ posTokens, ¬ x.head? = some 45 := by decide
      exact hhead (45 :: 32 :: r) (ht ▸ hmem.mp hp) rfl
    · intro hrhs
      exact absurd (hmem.mp hp) hrhs
  · have hp' : is_pos_heading (trim_sv s.line) = false := by simpa using hp
    constructor
    · intro _
      exact fun hc => hp (hmem.mpr hc)
    · intro _
      refine ⟨trim_sv s.line, ?_⟩
      unfold flush_line
      rw [if_neg hguard]
      dsimp only
      rw [if_neg hne]
      simp [hmargin, hcf, hp']

theorem claim_C2_bullet_rule_witness :
    (∃ r, (flush_line ⟨[{}], [97], [120], true, ⟨2, false, false, false⟩, 0⟩).out =
        [97] ++ 45 :: 32 :: r) ∧
    ¬ trim_sv [120] ∈ posTokens :=
  ⟨(claim_C2_bullet_rule ⟨[{}], [97], [120], true, ⟨2, false, false, false⟩, 0⟩
      rfl rfl (by decide)).mpr (by decide),
   by decide⟩

/-- C2 as stated is FALSE: the line `adv` (the adverb abbreviation) is a
`styleBucket`-2 line whose trimmed text lies OUTSIDE the claim's closed
TEN-token set, yet the renderer does not prefix it with `"- "` — the
source's heading set has an eleventh token `adv`.  Input: `\cf2 adv`. -/
theorem claim_C2_bullet_rule_cex :
    renderRtfForCli [92, 99, 102, 50, 32, 97, 100, 118] = [97, 100, 118] ∧
    ¬ [97, 100, 118] ∈
      ([[110], [97, 100, 106], [118, 116], [118, 105],
        [112, 114, 101, 112], [112, 114, 111, 110], [99, 111, 110, 106],
        [110, 117, 109], [100, 101, 116],
        [109, 111, 100, 97, 108, 32, 97, 117, 120, 32, 118, 98]] : List (List Nat)) ∧
    ¬ (renderRtfForCli [92, 99, 102, 50, 32, 97, 100, 118]).take 2 = [45, 32] := by
  decide

end Ydict

namespace Ydict

/-! ## C6: `suggest` behaviour -/

theorem suggestScan_length_le (ws : List WordEntry) (p : List Nat) :
    ∀ i need, (suggestScan ws i p need).length ≤ need := by
  induction ws with
  | nil => intro i need; simp [suggestScan]
  | cons e rest ih =>
    intro i need
    unfold suggestScan
    split_ifs with h1 h2
    · simp
    · have := ih (i + 1) (need - 1)
      simp only [List.length_cons]
      omega
    · exact ih (i + 1) need

theorem suggestScan_mem (ws : List WordEntry) (p : List Nat) :
    ∀ i need j, j ∈ suggestScan ws i p need →
      i ≤ j ∧ j - i < ws.length ∧
      starts_with_ascii_icase ((ws.getD (j - i) default).word) p = true := by
  induction ws with
  | nil => intro i need j h; simp [suggestScan] at h
  | cons e rest ih =>
    intro i need j h
    unfold suggestScan at h
    split_ifs at h with h1 h2
    · simp at h
    · rcases List.mem_cons.mp h with rfl | hmem
      · exact ⟨le_refl _, by simp, by simpa [Nat.sub_self] using h2⟩
      · obtain ⟨ha, hb, hc⟩ := ih (i + 1) (need - 1) j hmem
        refine ⟨by omega, by simp only [List.length_cons]; omega, ?_⟩
        have hji : j - i = (j - (i + 1)) + 1 := by omega
        rw [hji]
        simpa using hc
    · obtain ⟨ha, hb, hc⟩ := ih (i + 1) need j h
      refine ⟨by omega, by simp only [List.length_cons]; omega, ?_⟩
      have hji : j - i = (j - (i + 1)) + 1 := by omega
      rw [hji]
      simpa using hc

theorem suggestScan_sorted (ws : List WordEntry) (p : List Nat) :
    ∀ i need, List.Sorted (· < ·) (suggestScan ws i p need) := by
  induction ws with
  | nil => intro i need; simp [suggestScan]
  | cons e rest ih =>
    intro i need
    unfold suggestScan
    split_ifs with h1 h2
    · simp
    · rw [List.sorted_cons]
      refine ⟨fun b hb => ?_, ih (i + 1) (need - 1)⟩
      have := (suggestScan_mem rest p (i + 1) (need - 1) b hb).1
      omega
    · exact ih (i + 1) need

theorem starts_icase_refl (w : List Nat) : starts_with_ascii_icase w w = true := by
  induction w with
  | nil => rfl
  | cons a t ih => simp [starts_with_ascii_icase, ih]

theorem suggestScan_complete (ws : List WordEntry) (p : List Nat) :
    ∀ i need k,
      (ws.filter (fun e => starts_with_ascii_icase e.word p)).length ≤ need →
      k < ws.length →
      starts_with_ascii_icase ((ws.getD k default).word) p = true →
      (i + k) ∈ suggestScan ws i p need := by
  induction ws with
  | nil => intro i need k _ hk _; simp at hk
  | cons e rest ih =>
    intro i need k hbudget hk hsw
    by_cases he : starts_with_ascii_icase e.word p = true
    · have hb : (rest.filter (fun e => starts_with_ascii_icase e.word p)).length + 1 ≤ need := by
        simpa [List.filter_cons, he] using hbudget
      have hneed : ¬ need = 0 := by omega
      unfold suggestScan
      rw [if_neg hneed, if_pos he]
      match k with
      | 0 => exact List.mem_cons_self _ _
      | k' + 1 =>
        refine List.mem_cons_of_mem _ ?_
        have hik : i + (k' + 1) = (i + 1) + k' := by omega
        rw [hik]
        exact ih (i + 1) (need - 1) k' (by omega) (by simpa using hk) (by simpa using hsw)
    · match k with
      | 0 => exact absurd (by simpa using hsw) he
      | k' + 1 =>
        have hb : (rest.filter (fun e => starts_with_ascii_icase e.word p)).length ≤ need := by
          simpa [List.filter_cons, he] using hbudget
        have hk' : k' < rest.length := by simpa using hk
        have hsw' : starts_with_ascii_icase ((rest.getD k' default).word) p = true := by
          simpa using hsw
        have hmemf : rest.getD k' default ∈
            rest.filter (fun e => starts_with_ascii_icase e.word p) := by
          apply List.mem_filter.mpr
          refine ⟨?_, hsw'⟩
          rw [List.getD_eq_get rest default hk']
          exact List.get_mem rest k' hk'
        have hneed : ¬ need = 0 := by
          have hpos : 0 < (rest.filter (fun e => starts_with_ascii_icase e.word p)).length :=
            List.length_pos.mpr (List.ne_nil_of_mem hmemf)
          omega
        unfold suggestScan
        rw [if_neg hneed, if_neg he]
        have hik : i + (k' + 1) = (i + 1) + k' := by omega
        rw [hik]
        exact ih (i + 1) need k' hb hk' hsw'

/-- C6 amended (`suggest` behaviour): (1) a prefix beginning with the
case-insensitive three bytes `"to "` is stripped before matching (the
result is the plain scan with the stripped prefix); (2) every returned
index is in range and its entry's word starts ASCII-case-insensitively
with the (possibly stripped) prefix; (3) at most `limit` indices are
returned, in strictly increasing original table order; (4) on a table
containing `"run"`, `suggest("to run", limit)` contains an index of
`"run"` PROVIDED the limit is not exhausted first (limit at least the
number of entries whose word starts case-insensitively with `"run"`);
with a smaller limit an earlier match such as `"runner"` can crowd
`"run"` out (see the counterexample). -/
theorem claim_C6_suggest_behaviour (d : DictState) (hinit : d.initialized = true) :
    (∀ t o rest n, (t = 116 ∨ t = 84) → (o = 111 ∨ o = 79) → ¬ rest = [] → ¬ n = 0 →
      suggest d (t :: o :: 32 :: rest) n = suggestScan d.words 0 rest n) ∧
    (∀ pfx n j, j ∈ suggest d pfx n →
      j < d.words.length ∧
      starts_with_ascii_icase ((d.words.getD j default).word) (stripTo pfx) = true) ∧
    (∀ pfx n, (suggest d pfx n).length ≤ n ∧ List.Sorted (· < ·) (suggest d pfx n)) ∧
    (∀ n, (∃ k, k < d.words.length ∧ (d.words.getD k default).word = [114, 117, 110]) →
      (d.words.filter
        (fun e => starts_with_ascii_icase e.word [114, 117, 110])).length ≤ n →
      ∃ j, j ∈ suggest d [116, 111, 32, 114, 117, 110] n ∧
        (d.words.getD j default).word = [114, 117, 110]) := by
  refine ⟨?_, ?_, ?_, ?_⟩
  · intro t o rest n ht ho hrest hn
    have hstrip : stripTo (t :: o :: 32 :: rest) = rest := by
      simp only [stripTo]
      rw [if_pos ⟨ht, ho⟩]
    unfold suggest
    rw [hinit, if_neg (by simp [hn]), hstrip, if_neg hrest]
  · intro pfx n j hj
    unfold suggest at hj
    dsimp only at hj
    by_cases hg : (¬ d.initialized = true ∨ pfx = [] ∨ n = 0)
    · rw [if_pos hg] at hj
      simp at hj
    · rw [if_neg hg] at hj
      by_cases hp : stripTo pfx = []
      · rw [if_pos hp] at hj
        simp at hj
      · rw [if_neg hp] at hj
        obtain ⟨_, hb, hc⟩ := suggestScan_mem d.words (stripTo pfx) 0 n j hj
        exact ⟨by simpa using hb, by simpa using hc⟩
  · intro pfx n
    unfold suggest
    dsimp only
    by_cases hg : (¬ d.initialized = true ∨ pfx = [] ∨ n = 0)
    · rw [if_pos hg]
      simp
    · rw [if_neg hg]
      by_cases hp : stripTo pfx = []
      · rw [if_pos hp]
        simp
      · rw [if_neg hp]
        exact ⟨suggestScan_length_le d.words (stripTo pfx) 0 n,
          suggestScan_sorted d.words (stripTo pfx) 0 n⟩
  · intro n hk hbudget
    obtain ⟨k, hklen, hkword⟩ := hk
    have hsw : starts_with_ascii_icase ((d.words.getD k default).word) [114, 117, 110]
        = true := by
      rw [hkword]
      exact starts_icase_refl [114, 117, 110]
    have hmemf : d.words.getD k default ∈
        d.words.filter (fun e => starts_with_ascii_icase e.word [114, 117, 110]) := by
      apply List.mem_filter.mpr
      refine ⟨?_, hsw⟩
      rw [List.getD_eq_get d.words default hklen]
      exact List.get_mem d.words k hklen
    have hn : ¬ n = 0 := by
      have hpos : 0 < (d.words.filter
          (fun e => starts_with_ascii_icase e.word [114, 117, 110])).length :=
        List.length_pos.mpr (List.ne_nil_of_mem hmemf)
      omega
    have hstrip : stripTo [116, 111, 32, 114, 117, 110] = [114, 117, 110] := by decide
    refine ⟨k, ?_, hkword⟩
    unfold suggest
    rw [hinit, if_neg (by simp [hn]), hstrip, if_neg (by decide)]
    have := suggestScan_complete d.words [114, 117, 110] 0 n k hbudget hklen hsw
    simpa using this

/-- The table `["runner", "run"]`, used for the C6 witness and
counterexample. -/
def runLimitDict : DictState :=
  ⟨true, [⟨[114, 117, 110, 110, 101, 114], 0⟩, ⟨[114, 117, 110], 0⟩]⟩

theorem claim_C6_suggest_behaviour_witness :
    suggest runLimitDict [116, 111, 32, 114, 117, 110] 2 =
      suggestScan runLimitDict.words 0 [114, 117, 110] 2 ∧
    (suggest runLimitDict [116, 111, 32, 114, 117, 110] 2).length ≤ 2 := by
  have h := claim_C6_suggest_behaviour runLimitDict rfl
  exact ⟨h.1 116 111 [114, 117, 110] 2 (Or.inl rfl) (Or.inl rfl) (by decide) (by decide),
    (h.2.2.1 [116, 111, 32, 114, 117, 110] 2).1⟩

/-- C6 as stated is FALSE: on the table `["runner", "run"]` (which
contains `"run"`) with limit 1, `suggest("to run", 1)` returns `[0]` —
the index of `"runner"` — and contains no index of `"run"`, because the
limit is exhausted by the earlier prefix match. -/
theorem claim_C6_suggest_limit_cex :
    suggest runLimitDict [116, 111, 32, 114, 117, 110] 1 = [0] ∧
    ¬ (runLimitDict.words.getD 0 default).word = [114, 117, 110] ∧
    (runLimitDict.words.getD 1 default).word = [114, 117, 110] ∧
    1 < runLimitDict.words.length := by
  decide

end Ydict

namespace Ydict

/-! ## C8: the render stack is never empty -/

theorem st_flush (s : CliSt) : (flush_line s).st = s.st := by
  unfold flush_line
  dsimp only
  split_ifs <;> rfl

theorem st_emit (s : CliSt) : (emit_newline s).st = s.st := by
  unfold emit_newline
  split_ifs <;> rfl

theorem st_ensure (s : CliSt) : (ensure_line_started s).st = s.st := by
  unfold ensure_line_started
  split_ifs <;> rfl

theorem st_push_text (s : CliSt) (b : Nat) : (push_text_byte s b).st = s.st := by
  unfold push_text_byte ensure_line_started
  split_ifs <;> rfl

theorem st_modTop_length (s : CliSt) (f : RtfCliState → RtfCliState) :
    (modTop s f).st.length = s.st.length := by
  cases h : s.st <;> simp [modTop, h]

theorem cliCtrlWord_st_length (s : CliSt) (tok : List Nat) (hasParam : Bool)
    (param : Int) (r3 : List Nat) (h : 0 < s.st.length) :
    0 < (cliCtrlWord s tok hasParam param r3).1.st.length := by
  unfold cliCtrlWord
  split_ifs <;>
    simp_all [st_flush, st_emit, st_push_text, st_ensure, st_modTop_length]

theorem cliCtrl_st_length (s : CliSt) (next : Nat) (rest2 : List Nat)
    (h : 0 < s.st.length) : 0 < (cliCtrl s next rest2).1.st.length := by
  unfold cliCtrl
  split_ifs
  · simpa [st_push_text] using h
  · simpa [st_push_text] using h
  · exact cliCtrlWord_st_length s _ _ _ _ h

/-- Each loop iteration preserves non-emptiness of the render stack:
group-open makes it longer, group-close pops only at depth above one,
and every other token leaves the stack's length unchanged. -/
theorem cliStep_st_length (s : CliSt) (input : List Nat) (h : 0 < s.st.length) :
    0 < (cliStep s input).1.st.length := by
  cases input with
  | nil => simpa [cliStep] using h
  | cons ch rest =>
    cases rest with
    | nil =>
      unfold cliStep
      repeat' split
      all_goals simp_all [st_flush, st_emit, st_push_text]
      all_goals omega
    | cons next rest2 =>
      unfold cliStep
      repeat' split
      all_goals
        first
        | (exact cliCtrl_st_length s _ _ h)
        | (simp_all [st_flush, st_emit, st_push_text]; try omega)
        | simp_all

theorem renderTraceF_st_length (fuel : Nat) :
    ∀ s input s', 0 < s.st.length → s' ∈ renderTraceF fuel s input →
      0 < s'.st.length := by
  induction fuel with
  | zero =>
    intro s input s' h hmem
    unfold renderTraceF at hmem
    simp at hmem
    subst hmem
    exact h
  | succ n ih =>
    intro s input s' h hmem
    unfold renderTraceF at hmem
    cases input with
    | nil =>
      simp at hmem
      subst hmem
      exact h
    | cons a r =>
      rcases List.mem_cons.mp hmem with rfl | hmem'
      · exact h
      · exact ih _ _ _ (cliStep_st_length s (a :: r) h) hmem'

/-- C8 (render-stack non-emptiness invariant): the pass starts with one
default frame; every state in the trace of a complete rendering pass has
a non-empty stack (depth never reaches zero); a group-open pushes a
duplicate of the current top frame; a group-close at depth one (or on an
already-empty stack) is a no-op, never an error; a group-close at depth
above one pops exactly the top frame. -/
theorem claim_C8_render_stack_invariant :
    (cliInit.st = [{}]) ∧
    (∀ rtf s', s' ∈ renderTrace rtf → 0 < s'.st.length) ∧
    (∀ s : CliSt, ∀ rest : List Nat,
      cliStep s (123 :: rest) = ({ s with st := s.st.headD default :: s.st }, rest)) ∧
    (∀ s : CliSt, ∀ rest : List Nat, s.st.tail = [] →
      cliStep s (125 :: rest) = (s, rest)) ∧
    (∀ s : CliSt, ∀ f g : RtfCliState, ∀ fs : List RtfCliState, ∀ rest : List Nat,
      s.st = f :: g :: fs →
      cliStep s (125 :: rest) = ({ s with st := g :: fs }, rest)) := by
  refine ⟨rfl, ?_, ?_, ?_, ?_⟩
  · intro rtf s' hmem
    exact renderTraceF_st_length rtf.length cliInit rtf s' (by simp [cliInit]) hmem
  · intro s rest
    unfold cliStep topFrame
    dsimp only
    rw [if_pos rfl]
  · intro s rest htail
    unfold cliStep
    dsimp only
    rw [if_neg (by decide), if_pos rfl, if_neg ?_]
    · intro hlen
      cases hs : s.st with
      | nil => rw [hs] at hlen; simp at hlen
      | cons f fs =>
        rw [hs] at htail hlen
        simp at htail
        subst htail
        simp at hlen
  · intro s f g fs rest hst
    unfold cliStep
    dsimp only
    rw [if_neg (by decide), if_pos rfl, if_pos (by rw [hst]; simp)]
    rw [hst]
    rfl

theorem claim_C8_render_stack_invariant_witness :
    0 < cliInit.st.length ∧ cliStep cliInit [125] = (cliInit, []) :=
  ⟨claim_C8_render_stack_invariant.2.1 [] cliInit (by decide),
   claim_C8_render_stack_invariant.2.2.2.1 cliInit [] (by decide)⟩

end Ydict

namespace Ydict

/-! ## C4: paragraph-break multiplicity

`scanNl l r` walks `l` keeping the current run of consecutive `10`
(newline) bytes, starting from run length `r`; it returns `none` as soon
as a run reaches three, and otherwise `some` of the final trailing run.
Thus `scanNl l 0 ≠ none` says `l` has no three consecutive newlines. -/
def scanNl : List Nat → Nat → Option Nat
  | [], r => some r
  | b :: t, r => if b = 10 then (if 2 ≤ r then none else scanNl t (r + 1)) else scanNl t 0

/-- Does the byte list contain the two-byte sequence `\'` (backslash,
apostrophe) that introduces a hex escape?  Streams without it can never
place a raw newline byte into the pretty renderer's line buffer. -/
def hasHexIntro : List Nat → Bool
  | [] => false
  | [_] => false
  | a :: b :: t => if a = 92 ∧ b = 39 then true else hasHexIntro (b :: t)

theorem scanNl_append (l m : List Nat) :
    ∀ r, scanNl (l ++ m) r = (scanNl l r).bind (fun q => scanNl m q) := by
  induction l with
  | nil => intro r; simp [scanNl]
  | cons b t ih =>
    intro r
    by_cases hb : b = 10
    · by_cases h2 : 2 ≤ r
      · simp [scanNl, hb, h2]
      · simp [scanNl, hb, h2, ih]
    · simp [scanNl, hb, ih]

theorem scanNl_no10 (m : List Nat) :
    (∀ x ∈ m, ¬ x = 10) → ¬ m = [] → ∀ r, scanNl m r = some 0 := by
  induction m with
  | nil => intro _ hne; exact absurd rfl hne
  | cons b t ih =>
    intro hm _ r
    have hb : ¬ b = 10 := hm b (List.mem_cons_self b t)
    cases t with
    | nil => simp [scanNl, hb]
    | cons c u =>
      rw [scanNl, if_neg hb]
      exact ih (fun x hx => hm x (List.mem_cons_of_mem b hx)) (by simp) 0

theorem scanNl_triple (b : List Nat) (r : Nat) : scanNl (10 :: 10 :: 10 :: b) r = none := by
  simp only [scanNl, if_pos rfl]
  split_ifs with h1 h2 h3 <;> first | rfl | omega

theorem no_triple_of_scanNl {l : List Nat} (h : ¬ scanNl l 0 = none) :
    ¬ ∃ a b, l = a ++ 10 :: 10 :: 10 :: b := by
  rintro ⟨a, b, rfl⟩
  apply h
  rw [scanNl_append]
  cases hsa : scanNl a 0 with
  | none => rfl
  | some q => simp [scanNl_triple b q]

theorem hasHexIntro_tail {a : Nat} {t : List Nat} (h : hasHexIntro (a :: t) = false) :
    hasHexIntro t = false := by
  cases t with
  | nil => rfl
  | cons b u =>
    rw [hasHexIntro] at h
    split_ifs at h with hc
    exact h

theorem hasHexIntro_drop {l : List Nat} (h : hasHexIntro l = false) :
    ∀ k, hasHexIntro (l.drop k) = false := by
  induction l with
  | nil => intro k; simp [hasHexIntro]
  | cons a t ih =>
    intro k
    cases k with
    | zero => exact h
    | succ k' => exact ih (hasHexIntro_tail h) k'

theorem hasHexIntro_dropWhile {l : List Nat} (p : Nat → Bool)
    (h : hasHexIntro l = false) : hasHexIntro (l.dropWhile p) = false := by
  induction l with
  | nil => exact h
  | cons a t ih =>
    rw [List.dropWhile_cons]
    split_ifs with ha
    · exact ih (hasHexIntro_tail h)
    · exact h

theorem hasHexIntro_splitParam {l : List Nat} (h : hasHexIntro l = false) :
    hasHexIntro (splitParam l).2.2 = false := by
  cases l with
  | nil => exact h
  | cons d t =>
    simp only [splitParam]
    split_ifs with h45 hd
    · exact hasHexIntro_dropWhile is_digit (hasHexIntro_tail h)
    · exact hasHexIntro_dropWhile is_digit h
    · exact h

theorem hasHexIntro_skipSpace {l : List Nat} (h : hasHexIntro l = false) :
    hasHexIntro (skipSpace l) = false := by
  unfold skipSpace
  split_ifs with hs
  · cases l with
    | nil => exact h
    | cons a t => exact hasHexIntro_tail h
  · exact h

theorem mem_trim_sv {l : List Nat} {x : Nat} (h : x ∈ trim_sv l) : x ∈ l := by
  have h1 : trim_sv l ⊆ l.dropWhile isTrimWs := by
    have := List.rdropWhile_prefix isTrimWs (l.dropWhile isTrimWs)
    exact this.subset
  have h2 : l.dropWhile isTrimWs ⊆ l := (List.dropWhile_suffix isTrimWs).subset
  exact h2 (h1 h)

theorem phonetic_table_no10 :
    ∀ i, ∀ x ∈ kPhoneticToUtf8.getD i [], ¬ x = 10 := by
  intro i
  by_cases hi : i < kPhoneticToUtf8.length
  · have hi32 : i < 32 := by simpa [kPhoneticToUtf8] using hi
    interval_cases i <;> decide
  · rw [List.getD_eq_default _ _ (by omega)]
    simp

theorem decode_no10 (b : Nat) (ph : Bool) (hb : ¬ b = 10) :
    ∀ x ∈ append_byte_as_utf8 b ph, ¬ x = 10 := by
  unfold append_byte_as_utf8 append_cp1250_byte_as_utf8
  split_ifs with h1 h2 h3
  · exact phonetic_table_no10 (b - 128)
  · intro x hx; simp at hx; omega
  · intro x hx; simp at hx; omega
  · intro x hx; simp at hx; omega

/-- The output/newline-run invariant of the pretty renderer: the
newline-run counter equals the scan of the output (in particular the
output has no three consecutive newlines), the counter is at most 2, and
the line buffer holds no newline byte. -/
def CliInv (s : CliSt) : Prop :=
  scanNl s.out 0 = some s.nl_run ∧ s.nl_run ≤ 2 ∧ ∀ x ∈ s.line, ¬ x = 10

theorem inv_emit (s : CliSt) (h : CliInv s) : CliInv (emit_newline s) := by
  obtain ⟨h1, h2, h3⟩ := h
  unfold emit_newline
  split_ifs with hout hrun
  · exact ⟨h1, h2, h3⟩
  · exact ⟨h1, h2, h3⟩
  · refine ⟨?_, by dsimp only; omega, h3⟩
    rw [scanNl_append, h1]
    simp [scanNl, hrun]

theorem scanNl_commit (out t pre : List Nat) (nl : Nat)
    (h1 : scanNl out 0 = some nl) (hpre : ∀ y ∈ pre, ¬ y = 10)
    (ht : ∀ y ∈ t, ¬ y = 10) (htne : ¬ t = []) :
    scanNl (out ++ (pre ++ t)) 0 = some 0 := by
  rw [scanNl_append, h1, Option.some_bind]
  apply scanNl_no10
  · intro x hx
    rcases List.mem_append.mp hx with hx | hx
    · exact hpre x hx
    · exact ht x hx
  · intro hc
    rcases List.append_eq_nil.mp hc with ⟨-, hc2⟩
    exact htne hc2

theorem inv_flush (s : CliSt) (h : CliInv s) : CliInv (flush_line s) := by
  obtain ⟨h1, h2, h3⟩ := h
  have htno : ∀ x ∈ trim_sv s.line, ¬ x = 10 := fun x hx => h3 x (mem_trim_sv hx)
  unfold flush_line
  dsimp only
  split_ifs with hg ht hmg hbul
  · exact ⟨h1, h2, h3⟩
  · exact ⟨h1, h2, by simp⟩
  · refine ⟨?_, by dsimp only; omega, by simp⟩
    simp only [List.append_assoc, List.cons_append, List.nil_append]
    exact scanNl_commit s.out (trim_sv s.line) [32, 32, 45, 32] s.nl_run h1
      (by decide) htno ht
  · refine ⟨?_, by dsimp only; omega, by simp⟩
    simp only [List.append_assoc, List.cons_append, List.nil_append]
    exact scanNl_commit s.out (trim_sv s.line) [32, 32] s.nl_run h1
      (by decide) htno ht
  · refine ⟨?_, by dsimp only; omega, by simp⟩
    simp only [List.append_assoc, List.cons_append, List.nil_append]
    exact scanNl_commit s.out (trim_sv s.line) [45, 32] s.nl_run h1
      (by decide) htno ht
  · refine ⟨?_, by dsimp only; omega, by simp⟩
    simp only [List.append_assoc, List.cons_append, List.nil_append]
    exact scanNl_commit s.out (trim_sv s.line) [] s.nl_run h1
      (by decide) htno ht

theorem inv_push (s : CliSt) (b : Nat) (hb : ¬ b = 10) (h : CliInv s) :
    CliInv (push_text_byte s b) := by
  obtain ⟨h1, h2, h3⟩ := h
  unfold push_text_byte ensure_line_started
  split_ifs with hh hw hl
  · exact ⟨h1, h2, h3⟩
  · exact ⟨h1, h2, h3⟩
  · refine ⟨h1, h2, ?_⟩
    intro x hx
    rcases List.mem_append.mp hx with hx | hx
    · exact h3 x hx
    · exact decode_no10 b _ hb x hx
  · refine ⟨h1, h2, ?_⟩
    intro x hx
    rcases List.mem_append.mp hx with hx | hx
    · exact h3 x hx
    · exact decode_no10 b _ hb x hx

theorem inv_modTop (s : CliSt) (f : RtfCliState → RtfCliState) (h : CliInv s) :
    CliInv (modTop s f) := by
  obtain ⟨h1, h2, h3⟩ := h
  unfold modTop
  split
  · exact ⟨h1, h2, h3⟩
  · exact ⟨h1, h2, h3⟩

theorem inv_ctrlWord (s : CliSt) (tok : List Nat) (hasParam : Bool) (param : Int)
    (r3 : List Nat) (h : CliInv s) :
    CliInv (cliCtrlWord s tok hasParam param r3).1 := by
  unfold cliCtrlWord
  split_ifs
  all_goals first
    | exact h
    | exact inv_emit _ (inv_flush _ h)
    | exact inv_modTop _ _ h
    | exact inv_push _ _ (by decide) h
    | (obtain ⟨h1, h2, h3⟩ := h
       unfold ensure_line_started
       split_ifs
       all_goals refine ⟨h1, h2, ?_⟩
       all_goals intro x hx
       all_goals rcases List.mem_append.mp hx with hx | hx
       · exact h3 x hx
       · simp at hx; omega
       · exact h3 x hx
       · simp at hx; omega)

theorem ctrlWord_rest_noHex (s : CliSt) (tok : List Nat) (hasParam : Bool) (param : Int)
    (r3 : List Nat) (hr3 : hasHexIntro r3 = false) :
    hasHexIntro (cliCtrlWord s tok hasParam param r3).2 = false := by
  unfold cliCtrlWord
  split_ifs <;> first | exact hr3 | exact hasHexIntro_drop hr3 1

theorem inv_ctrl (s : CliSt) (next : Nat) (rest2 : List Nat) (h : CliInv s)
    (hhex : hasHexIntro (92 :: next :: rest2) = false) :
    CliInv (cliCtrl s next rest2).1 := by
  unfold cliCtrl
  split_ifs with h1 h2
  · refine inv_push s next ?_ h
    rcases h1 with h1 | h1 | h1 <;> omega
  · exfalso
    obtain ⟨h39, -⟩ := h2
    rw [hasHexIntro, if_pos ⟨rfl, h39⟩] at hhex
    exact absurd hhex (by simp)
  · exact inv_ctrlWord s _ _ _ _ h

theorem ctrl_rest_noHex (s : CliSt) (next : Nat) (rest2 : List Nat)
    (hhex : hasHexIntro (92 :: next :: rest2) = false) :
    hasHexIntro (cliCtrl s next rest2).2 = false := by
  have ht1 := hasHexIntro_tail hhex
  have ht2 := hasHexIntro_tail ht1
  unfold cliCtrl
  split_ifs with h1 h2
  · exact ht2
  · exact hasHexIntro_drop ht2 2
  · exact ctrlWord_rest_noHex s _ _ _ _
      (hasHexIntro_skipSpace (hasHexIntro_splitParam (hasHexIntro_dropWhile is_alpha ht1)))

/-- One loop iteration preserves the output invariant and leaves a
hex-escape-free remainder. -/
theorem cliStep_inv (s : CliSt) (input : List Nat) (h : CliInv s)
    (hhex : hasHexIntro input = false) :
    CliInv (cliStep s input).1 ∧ hasHexIntro (cliStep s input).2 = false := by
  cases input with
  | nil => exact ⟨h, rfl⟩
  | cons ch rest =>
    cases rest with
    | nil =>
      unfold cliStep
      dsimp only
      split_ifs
      all_goals refine ⟨?_, rfl⟩
      all_goals first
        | exact h
        | exact inv_emit _ (inv_flush _ h)
        | exact inv_push _ _ (by omega) h
    | cons next rest2 =>
      have hhex1 : hasHexIntro (next :: rest2) = false := hasHexIntro_tail hhex
      unfold cliStep
      dsimp only
      split_ifs with hc1 hc2 hc3 hc4 hc5 hc6 hc7
      all_goals first
        | exact ⟨h, hhex1⟩
        | exact ⟨inv_emit _ (inv_flush _ h), hhex1⟩
        | exact ⟨inv_push _ _ (by omega) h, hhex1⟩
        | (refine ⟨inv_ctrl s next rest2 h ?_, ctrl_rest_noHex s next rest2 ?_⟩
           all_goals exact (by assumption : ch = 92) ▸ hhex)

theorem renderLoopF_inv (fuel : Nat) :
    ∀ s input, input.length ≤ fuel → CliInv s → hasHexIntro input = false →
      CliInv (renderLoopF fuel s input) := by
  induction fuel with
  | zero =>
    intro s input hlen h _
    have hnil : input = [] := List.eq_nil_of_length_eq_zero (by omega)
    subst hnil
    simpa [renderLoopF] using h
  | succ n ih =>
    intro s input hlen h hhex
    cases input with
    | nil => simpa [renderLoopF] using h
    | cons a r =>
      unfold renderLoopF
      dsimp only
      obtain ⟨hi, hx⟩ := cliStep_inv s (a :: r) h hhex
      refine ih _ _ ?_ hi hx
      have := cliStep_consumes s a r
      simp only [List.length_cons] at this hlen ⊢
      omega

theorem splitParam_id {l : List Nat} (hd : is_digit (l.headD 92) = false)
    (hm : ¬ l.headD 92 = 45) : splitParam l = (false, 0, l) := by
  cases l with
  | nil => rfl
  | cons a t =>
    simp only [List.headD_cons] at hd hm
    simp [splitParam, hd, hm]

theorem skipSpace_id {l : List Nat} (hsp : ¬ l.headD 92 = 32) : skipSpace l = l := by
  cases l with
  | nil => rfl
  | cons a t =>
    simp only [List.headD_cons] at hsp
    simp [skipSpace, hsp]

/-- Processing one `\par` token in plain mode emits exactly one newline,
whenever the following byte cannot extend the token (not a letter, not a
numeric parameter, not a delimiter space). -/
theorem plainFrom_par (ph : Bool) (rest : List Nat)
    (ha : is_alpha (rest.headD 92) = false) (hd : is_digit (rest.headD 92) = false)
    (hm : ¬ rest.headD 92 = 45) (hsp : ¬ rest.headD 92 = 32) :
    plainFrom ph (92 :: 112 :: 97 :: 114 :: rest) = 10 :: plainFrom ph rest := by
  have htok : (112 :: 97 :: 114 :: rest).takeWhile is_alpha = [112, 97, 114] := by
    cases rest with
    | nil => decide
    | cons a t =>
      simp only [List.headD_cons] at ha
      simp [List.takeWhile_cons, ha, show is_alpha 112 = true from by decide,
        show is_alpha 97 = true from by decide, show is_alpha 114 = true from by decide]
  have hdrop : (112 :: 97 :: 114 :: rest).dropWhile is_alpha = rest := by
    cases rest with
    | nil => decide
    | cons a t =>
      simp only [List.headD_cons] at ha
      simp [List.dropWhile_cons, ha, show is_alpha 112 = true from by decide,
        show is_alpha 97 = true from by decide, show is_alpha 114 = true from by decide]
  have hctrl : plainCtrl ph 112 (97 :: 114 :: rest) = ([10], ph, rest) := by
    unfold plainCtrl
    rw [if_neg (by simp), htok, hdrop, splitParam_id hd hm, skipSpace_id hsp]
    rw [if_pos (Or.inl rfl)]
  conv_lhs => rw [plainFrom.eq_def]
  dsimp only
  rw [if_neg (show ¬ ((92 : Nat) = 123 ∨ (92 : Nat) = 125) from by decide)]
  rw [if_neg (show ¬ ¬ (92 : Nat) = 92 from by decide)]
  rw [hctrl]
  rfl

/-- C4 amended (paragraph-break multiplicity): (1) in plain mode, two
consecutive `\par` tokens contribute exactly two newline characters, in
any phonetic state and before any continuation that does not extend the
second token, and concretely `rtf_to_plain_utf8 "\par\par" = "\n\n"`;
(2) in pretty mode, for every input stream CONTAINING NO `\'` HEX-ESCAPE
INTRODUCER, the output never contains three consecutive newline
characters.  (The hex escape `\'0a` can smuggle literal newline bytes
into a committed line, which defeats the blank-line compression: see the
counterexample.) -/
theorem claim_C4_paragraph_breaks :
    (∀ ph rest, is_alpha (rest.headD 92) = false → is_digit (rest.headD 92) = false →
      ¬ rest.headD 92 = 45 → ¬ rest.headD 92 = 32 →
      plainFrom ph ([92, 112, 97, 114, 92, 112, 97, 114] ++ rest) =
        10 :: 10 :: plainFrom ph rest) ∧
    rtf_to_plain_utf8 [92, 112, 97, 114, 92, 112, 97, 114] = [10, 10] ∧
    (∀ rtf, hasHexIntro rtf = false →
      ¬ ∃ a b, renderRtfForCli rtf = a ++ 10 :: 10 :: 10 :: b) := by
  have hpar : ∀ ph rest, is_alpha (rest.headD 92) = false →
      is_digit (rest.headD 92) = false → ¬ rest.headD 92 = 45 → ¬ rest.headD 92 = 32 →
      plainFrom ph ([92, 112, 97, 114, 92, 112, 97, 114] ++ rest) =
        10 :: 10 :: plainFrom ph rest := by
    intro ph rest ha hd hm hsp
    have h1 := plainFrom_par ph (92 :: 112 :: 97 :: 114 :: rest)
      (by simp [is_alpha]) (by simp [is_digit]) (by simp) (by simp)
    have h2 := plainFrom_par ph rest ha hd hm hsp
    calc plainFrom ph (92 :: 112 :: 97 :: 114 :: 92 :: 112 :: 97 :: 114 :: rest)
        = 10 :: plainFrom ph (92 :: 112 :: 97 :: 114 :: rest) := h1
      _ = 10 :: 10 :: plainFrom ph rest := by rw [h2]
  refine ⟨hpar, ?_, ?_⟩
  · have h := hpar false [] (by decide) (by decide) (by decide) (by decide)
    have hnil : plainFrom false [] = [] := by simp [plainFrom]
    rw [hnil] at h
    simpa [rtf_to_plain_utf8] using h
  · intro rtf hhex
    have hinit : CliInv cliInit := ⟨rfl, by decide, by simp [cliInit]⟩
    have hinv : CliInv (renderLoopF rtf.length cliInit rtf) :=
      renderLoopF_inv rtf.length cliInit rtf (le_refl _) hinit hhex
    obtain ⟨h1, -, -⟩ := inv_flush _ hinv
    refine no_triple_of_scanNl ?_
    show ¬ scanNl (flush_line (renderLoopF rtf.length cliInit rtf)).out 0 = none
    rw [h1]
    simp

theorem claim_C4_paragraph_breaks_witness :
    plainFrom false ([92, 112, 97, 114, 92, 112, 97, 114] ++ []) =
      10 :: 10 :: plainFrom false [] ∧
    ¬ ∃ a b, renderRtfForCli [92, 112, 97, 114] = a ++ 10 :: 10 :: 10 :: b :=
  ⟨claim_C4_paragraph_breaks.1 false [] (by decide) (by decide) (by decide) (by decide),
   claim_C4_paragraph_breaks.2.2 [92, 112, 97, 114] (by decide)⟩

/-- C4 as stated is FALSE for pretty mode: the pretty rendering of the
stream `\'0a\'0a\'0a` (three hex-escaped newline bytes, committed as one
line at end of input) is exactly three consecutive newline characters,
so the output CAN contain three consecutive newlines. -/
theorem claim_C4_hex_newline_cex :
    renderRtfForCli [92, 39, 48, 97, 92, 39, 48, 97, 92, 39, 48, 97] = [10, 10, 10] := by
  decide

end Ydict
